import Mathlib

/-!
Shallow embedding of the asset-ingestion and resource-resolution pipeline of a
browser-based 3D product configurator (Next.js + model-viewer).

The embedded code lives in:
  * `ModelUploader` : `patchGltfContent` (scene-document patcher and legacy
    material normalizer), `processFiles` (ZIP expansion and file classification);
  * `ProductViewer` (two variants) : `applyTexture` (material target resolver);
  * `ColorPicker` : `hexToRgbNormalized`, `applyColor`.

Modelling conventions:
  * JS strings are `List Char` (`Str`); `toLowerCase`, `includes`, `endsWith`,
    `startsWith` and `split` are modelled character-by-character for the ASCII
    range that the code manipulates.
  * `decodeURIComponent` is modelled for single-byte (ASCII) percent escapes;
    a malformed escape is a decode failure, exactly as the JS builtin throws
    `URIError`.  Multi-byte UTF-8 escape runs are out of the model and are
    mapped to decode failures as well; no claim below depends on them.
  * A JS `Map` is an insertion-ordered association list; `Map.set` on an
    existing key overwrites in place, keeping the key's original position.
  * `URL.createObjectURL f` is the constructor `UriRef.objectUrl f`: a fresh
    loadable reference to the in-memory file `f`.
  * JSON numbers are rationals (`Rat`); the glTF documents and materials are
    records holding exactly the fields the embedded functions read or write.
-/

namespace Configurator

/-- JS strings, as character lists. -/
abbrev Str := List Char

/-- Coerce a Lean string literal into the model's string type. -/
def str (s : String) : Str := s.data

/-- ASCII case folding, as `String.prototype.toLowerCase` acts on the
ASCII range (the only range the embedded code compares). -/
def lowerChar (c : Char) : Char :=
  if 65 ≤ c.toNat ∧ c.toNat ≤ 90 then Char.ofNat (c.toNat + 32) else c

/-- JS `s.toLowerCase()`. -/
def lowerStr (s : Str) : Str := s.map lowerChar

/-- JS `s.startsWith(p)`. -/
def jsStartsWith : Str → Str → Bool
  | _, [] => true
  | [], _ :: _ => false
  | c :: cs, d :: ds => c = d && jsStartsWith cs ds

/-- JS `s.endsWith(p)`. -/
def jsEndsWith (s p : Str) : Bool := jsStartsWith s.reverse p.reverse

/-- JS `s.includes(sub)`. -/
def jsIncludes : Str → Str → Bool
  | [], sub => jsStartsWith [] sub
  | c :: cs, sub => jsStartsWith (c :: cs) sub || jsIncludes cs sub

/-- Accumulator of JS `s.split(sep)` (splitting on single characters accepted by `sep`):
accumulator for `splitBy`. -/
def splitAux (sep : Char → Bool) : Str → Str → List Str
  | [], acc => [acc.reverse]
  | c :: rest, acc =>
    if sep c then acc.reverse :: splitAux sep rest []
    else splitAux sep rest (c :: acc)

/-- JS `s.split(sep)`; the result is never the empty list, matching JS. -/
def splitBy (sep : Char → Bool) (s : Str) : List Str := splitAux sep s []

/-- The separator class of the patcher's `split(/[/\\]/)`. -/
def isSep (c : Char) : Bool := c = '/' || c = '\\'

/-- Value of one hex digit, or `none` when the character is not a hex digit. -/
def hexDigitVal? (c : Char) : Option Nat :=
  if 48 ≤ c.toNat ∧ c.toNat ≤ 57 then some (c.toNat - 48)
  else if 97 ≤ c.toNat ∧ c.toNat ≤ 102 then some (c.toNat - 87)
  else if 65 ≤ c.toNat ∧ c.toNat ≤ 70 then some (c.toNat - 55)
  else none

/-- JS `decodeURIComponent`, modelled for ASCII percent escapes.  A `%` that is
not followed by two hex digits makes the JS builtin throw `URIError`; that and
a decoded byte outside the ASCII range are modelled as `none`. -/
def decodeURIComponent : Str → Option Str
  | [] => some []
  | '%' :: c1 :: c2 :: rest =>
    match hexDigitVal? c1, hexDigitVal? c2 with
    | some h1, some h2 =>
      if 16 * h1 + h2 < 128 then
        match decodeURIComponent rest with
        | some t => some (Char.ofNat (16 * h1 + h2) :: t)
        | none => none
      else none
    | _, _ => none
  | ['%'] => none
  | ['%', _] => none
  | c :: rest =>
    match decodeURIComponent rest with
    | some t => some (c :: t)
    | none => none

/-- An in-memory file dropped by the user or extracted from an archive:
its (flattened) name plus an opaque payload identity. -/
structure InMemoryFile where
  name : Str
  payload : Nat
  deriving DecidableEq

/-- The resource pool: a JS `Map` from filename to file, i.e. an
insertion-ordered association list with pairwise-distinct keys. -/
abbrev ResourcePool := List (Str × InMemoryFile)

/-- JS `Map.prototype.get`. -/
def mapGet : ResourcePool → Str → Option InMemoryFile
  | [], _ => none
  | (k, v) :: rest, k' => if k = k' then some v else mapGet rest k'

/-- JS `Map.prototype.set`: overwrite in place when the key exists (keeping its
insertion position), append otherwise. -/
def mapSet : ResourcePool → Str → InMemoryFile → ResourcePool
  | [], k, v => [(k, v)]
  | (k', v') :: rest, k, v =>
    if k' = k then (k', v) :: rest else (k', v') :: mapSet rest k v

/-- Outcome of the patcher's `getResource` lookup: a matched file, a clean
miss, or the `URIError` thrown by `decodeURIComponent` on a malformed URI. -/
inductive LookupOutcome
  | found (f : InMemoryFile)
  | missing
  | decodeFailure
  deriving DecidableEq

/-- The per-entry test of `getResource`'s fallback loop, in the source's
order: case-insensitive filename equality first, then suffix match. -/
def entryMatches (filename : Str) (e : Str × InMemoryFile) : Bool :=
  decide (lowerStr e.1 = lowerStr filename) || jsEndsWith e.1 filename

/-- The fallback loop of `getResource`: one pass over the pool in insertion
order; each key is tested for case-insensitive equality with the basename and
then for ending with the basename, and the first key passing either test
wins. -/
def scanEntries (filename : Str) : ResourcePool → Option InMemoryFile
  | [] => none
  | (key, value) :: rest =>
    if lowerStr key = lowerStr filename then some value
    else if jsEndsWith key filename then some value
    else scanEntries filename rest

/-- Function `getResource` from `patchGltfContent`: exact `Map` lookup of the raw URI;
otherwise URL-decode, take the basename (splitting on `/` and `\`), bail out
on an empty basename, and run the single fallback scan `scanEntries`. -/
def getResource (resources : ResourcePool) (uri : Str) : LookupOutcome :=
  match mapGet resources uri with
  | some f => .found f
  | none =>
    match decodeURIComponent uri with
    | none => .decodeFailure
    | some cleanUri =>
      match (splitBy isSep cleanUri).getLast? with
      | none => .missing
      | some filename =>
        if filename = [] then .missing
        else
          match scanEntries filename resources with
          | some f => .found f
          | none => .missing

/-- Modelled from the spec: the four-tier cascade the specification describes
for resource lookup (exact; case-sensitive basename; case-insensitive
basename; suffix), each tier scanning the whole pool before the next is
tried.  Written from the spec's words only, for comparison with
`getResource`. -/
def findEntry (p : Str → Bool) : ResourcePool → Option InMemoryFile
  | [] => none
  | (k, v) :: rest => if p k then some v else findEntry p rest

/-- Modelled from the spec: see `findEntry`.  Tier order is exact, then
case-sensitive basename, then case-insensitive basename, then suffix. -/
def getResourceSpec (resources : ResourcePool) (uri : Str) : Option InMemoryFile :=
  match mapGet resources uri with
  | some f => some f
  | none =>
    match decodeURIComponent uri with
    | none => none
    | some cleanUri =>
      match (splitBy isSep cleanUri).getLast? with
      | none => none
      | some filename =>
        if filename = [] then none
        else
          match findEntry (fun k => decide (k = filename)) resources with
          | some f => some f
          | none =>
            match findEntry (fun k => decide (lowerStr k = lowerStr filename)) resources with
            | some f => some f
            | none => findEntry (fun k => jsEndsWith k filename) resources

/-- A URI slot in the scene document: either the textual URI parsed from the
JSON, or a loadable object URL minted by `URL.createObjectURL`. -/
inductive UriRef
  | plain (s : Str)
  | objectUrl (f : InMemoryFile)
  deriving DecidableEq

/-- A glTF `textureInfo` object (the patcher copies it wholesale, so only the
texture index is modelled). -/
structure TextureRef where
  index : Nat
  deriving DecidableEq

/-- The `pbrMetallicRoughness` container of a glTF material, restricted to
the fields `patchGltfContent` reads or writes. -/
structure PbrMetallicRoughness where
  baseColorTexture : Option TextureRef := none
  baseColorFactor : Option (List Rat) := none
  metallicFactor : Option Rat := none
  roughnessFactor : Option Rat := none
  deriving DecidableEq

/-- The `KHR_materials_pbrSpecularGlossiness` extension payload, restricted
to the fields the converter reads. -/
structure SpecGloss where
  diffuseTexture : Option TextureRef := none
  diffuseFactor : Option (List Rat) := none
  deriving DecidableEq

/-- A material's `extensions` object, restricted to the one extension key the
converter inspects and deletes. -/
structure MaterialExtensions where
  specularGlossiness : Option SpecGloss := none
  deriving DecidableEq

/-- A glTF material, restricted to the fields `patchGltfContent` touches. -/
structure GltfMaterial where
  name : Str := []
  pbrMetallicRoughness : Option PbrMetallicRoughness := none
  extensions : Option MaterialExtensions := none
  deriving DecidableEq

/-- The parsed glTF document.  `buffers` and `images` are modelled by their
`uri` fields (`none` for an entry without a `uri` key); an absent top-level
array is `none`, matching the JS truthiness guards. -/
structure GltfDocument where
  buffers : Option (List (Option UriRef)) := none
  images : Option (List (Option UriRef)) := none
  materials : Option (List GltfMaterial) := none
  extensionsRequired : Option (List Str) := none
  extensionsUsed : Option (List Str) := none
  deriving DecidableEq

/-- One buffer/image patch step of `patchGltfContent`: a truthy, non-`data:`
textual URI is resolved with `getResource`; a match rewrites it to the file's
object URL, a miss appends the original string to the missing list, and a
`URIError` from decoding aborts the whole patch. -/
def patchRef (resources : ResourcePool) :
    Option UriRef → List Str → Except Unit (Option UriRef × List Str)
  | some (.plain s), missing =>
    if !s.isEmpty && !jsStartsWith s (str "data:") then
      match getResource resources s with
      | .found f => .ok (some (.objectUrl f), missing)
      | .missing => .ok (some (.plain s), missing ++ [s])
      | .decodeFailure => .error ()
    else .ok (some (.plain s), missing)
  | u, missing => .ok (u, missing)

/-- The `forEach` loop of `patchGltfContent` over one buffer/image array,
threading the `missing` accumulator. -/
def patchRefList (resources : ResourcePool) :
    List (Option UriRef) → List Str → Except Unit (List (Option UriRef) × List Str)
  | [], missing => .ok ([], missing)
  | u :: rest, missing =>
    match patchRef resources u missing with
    | .error e => .error e
    | .ok (u', missing') =>
      match patchRefList resources rest missing' with
      | .error e => .error e
      | .ok (rest', missing'') => .ok (u' :: rest', missing'')

/-- Function `patchRefList` lifted over the truthiness guard on an absent array. -/
def patchOptRefList (resources : ResourcePool) :
    Option (List (Option UriRef)) → List Str →
    Except Unit (Option (List (Option UriRef)) × List Str)
  | none, missing => .ok (none, missing)
  | some l, missing =>
    match patchRefList resources l missing with
    | .error e => .error e
    | .ok (l', missing') => .ok (some l', missing')

/-- The `pbrMetallicRoughness` container the converter operates on: the
existing one, or the freshly created empty one
(`if (!material.pbrMetallicRoughness) material.pbrMetallicRoughness = {}`). -/
def pbrOrDefault (m : GltfMaterial) : PbrMetallicRoughness :=
  match m.pbrMetallicRoughness with
  | some p => p
  | none => {}

/-- Source line `if (specGloss.diffuseTexture) … baseColorTexture = specGloss.diffuseTexture`. -/
def migrateDiffuseTexture (p : PbrMetallicRoughness) (sg : SpecGloss) : PbrMetallicRoughness :=
  match sg.diffuseTexture with
  | some t => { p with baseColorTexture := some t }
  | none => p

/-- Source line `if (specGloss.diffuseFactor) … baseColorFactor = specGloss.diffuseFactor`. -/
def migrateDiffuseFactor (p : PbrMetallicRoughness) (sg : SpecGloss) : PbrMetallicRoughness :=
  match sg.diffuseFactor with
  | some f => { p with baseColorFactor := some f }
  | none => p

/-- Source line `if (… roughnessFactor === undefined) roughnessFactor = 0.5`. -/
def defaultRoughness (p : PbrMetallicRoughness) : PbrMetallicRoughness :=
  if p.roughnessFactor = (none : Option Rat) then
    { p with roughnessFactor := some (1 / 2 : Rat) }
  else p

/-- Source line `if (… metallicFactor === undefined) metallicFactor = 0.0`. -/
def defaultMetallic (p : PbrMetallicRoughness) : PbrMetallicRoughness :=
  if p.metallicFactor = (none : Option Rat) then
    { p with metallicFactor := some (0 : Rat) }
  else p

/-- The per-material `KHR_materials_pbrSpecularGlossiness` conversion of
`patchGltfContent`: ensure the `pbrMetallicRoughness` container exists, move
a present `diffuseTexture` to `baseColorTexture` and a present
`diffuseFactor` to `baseColorFactor`, default `roughnessFactor` to `0.5` and
`metallicFactor` to `0.0` when still `undefined`, then delete the
extension key. -/
def convertSpecGloss (m : GltfMaterial) : GltfMaterial :=
  match m.extensions with
  | none => m
  | some extBlock =>
    match extBlock.specularGlossiness with
    | none => m
    | some specGloss =>
      { m with
        pbrMetallicRoughness := some
          (defaultMetallic (defaultRoughness
            (migrateDiffuseFactor (migrateDiffuseTexture (pbrOrDefault m) specGloss) specGloss))),
        extensions := some { extBlock with specularGlossiness := none } }

/-- The deprecated capability name removed from the document-level
extension lists. -/
def specGlossExtName : Str := str "KHR_materials_pbrSpecularGlossiness"

/-- The `filter` dropping the deprecated capability name. -/
def filterSpecGloss (l : List Str) : List Str :=
  l.filter (fun e => decide (e ≠ specGlossExtName))

/-- The legacy-material block of `patchGltfContent`: guarded by the presence
of `json.materials`, convert every material and strip the deprecated name
from the `extensionsRequired`/`extensionsUsed` lists when those exist. -/
def normalizeMaterials (doc : GltfDocument) : GltfDocument :=
  match doc.materials with
  | none => doc
  | some mats =>
    { doc with
      materials := some (mats.map convertSpecGloss),
      extensionsRequired := doc.extensionsRequired.map filterSpecGloss,
      extensionsUsed := doc.extensionsUsed.map filterSpecGloss }

/-- Function `patchGltfContent`: patch the buffer URIs, then the image URIs (the one
`missing` list accumulates across both, buffers first), then normalize the
legacy materials.  A `URIError` from `decodeURIComponent` propagates and
fails the whole operation. -/
def patchGltfContent (doc : GltfDocument) (resources : ResourcePool) :
    Except Unit (GltfDocument × List Str) :=
  match patchOptRefList resources doc.buffers [] with
  | .error e => .error e
  | .ok (bufs, missing1) =>
    match patchOptRefList resources doc.images missing1 with
    | .error e => .error e
    | .ok (imgs, missing2) =>
      .ok (normalizeMaterials { doc with buffers := bufs, images := imgs }, missing2)

/-- The live `pbrMetallicRoughness` handle that `model-viewer` reports for a
loaded material.  The two `has…` flags model the source's truthiness checks
on the `setBaseColorTexture` / `setBaseColorFactor` methods before calling
them. -/
structure PbrHandle where
  hasSetBaseColorTexture : Bool := true
  hasSetBaseColorFactor : Bool := true
  baseColorTexture : Option Nat := none
  baseColorFactor : List Rat := [1, 1, 1, 1]
  deriving DecidableEq

/-- A live material of the loaded asset, as reported by the viewer. -/
structure ViewerMaterial where
  name : Str
  pbrMetallicRoughness : PbrHandle
  deriving DecidableEq

/-- The per-material update both `applyTexture` variants perform: when the
`setBaseColorTexture` method exists, install the new texture and (when the
`setBaseColorFactor` method exists too) reset the factor to opaque white;
otherwise, when a `baseColorTexture` object already exists, swap its
underlying texture in place; otherwise do nothing. -/
def applyNewTexture (newTexture : Nat) (m : ViewerMaterial) : ViewerMaterial :=
  if m.pbrMetallicRoughness.hasSetBaseColorTexture then
    { m with pbrMetallicRoughness :=
      { m.pbrMetallicRoughness with
        baseColorTexture := some newTexture,
        baseColorFactor :=
          if m.pbrMetallicRoughness.hasSetBaseColorFactor then [1, 1, 1, 1]
          else m.pbrMetallicRoughness.baseColorFactor } }
  else if m.pbrMetallicRoughness.baseColorTexture.isSome then
    { m with pbrMetallicRoughness :=
      { m.pbrMetallicRoughness with baseColorTexture := some newTexture } }
  else m

/-- The static slot mapping of the slot-based `applyTexture`
(`materialTargetMap` in the source). -/
def materialTargetMap (slotName : Str) : Option (List Str) :=
  if slotName = str "logo_1" then
    some [str "logo.001", str "logo_1", str "logo_front", str "decals_1"]
  else if slotName = str "logo_2" then
    some [str "logo.002", str "logo_2", str "logo_back", str "decals_2"]
  else if slotName = str "logo_3" then
    some [str "logo.003", str "logo_3", str "logo_sleeve", str "decals_3"]
  else none

/-- The inner `targetNames.some(...)` test: does some candidate fragment
occur case-insensitively in the material's name? -/
def nameMatchesTargets (targetNames : List Str) (m : ViewerMaterial) : Bool :=
  targetNames.any (fun n => jsIncludes (lowerStr m.name) (lowerStr n))

/-- Index of the first element passing `p` (JS `Array.prototype.find`,
tracked by position so that the in-place mutation hits that one object). -/
def findFirstIdx (p : α → Bool) : List α → Option Nat
  | [] => none
  | a :: rest => if p a then some 0 else (findFirstIdx p rest).map (· + 1)

/-- Replace the element at one position by its image under `f`. -/
def modifyAt (f : α → α) : List α → Nat → List α
  | [], _ => []
  | a :: rest, 0 => f a :: rest
  | a :: rest, n + 1 => a :: modifyAt f rest n

/-- The material scan of the slot-based `applyTexture`:
`materials.find(m => targetNames.some(...))` — the outer loop is over the
reported materials, the candidate fragments are the inner scan. -/
def findTargetIdx (targetNames : List Str) (materials : List ViewerMaterial) : Option Nat :=
  findFirstIdx (nameMatchesTargets targetNames) materials

/-- Modelled from the spec: the scan order §4.5 step 1 describes — candidate
fragments as the outer loop, reported materials as the inner scan.  Written
from the spec's words only, for comparison with `findTargetIdx`. -/
def findTargetIdxSpecOrder (targetNames : List Str) (materials : List ViewerMaterial) : Option Nat :=
  match targetNames with
  | [] => none
  | n :: rest =>
    match findFirstIdx (fun m => jsIncludes (lowerStr m.name) (lowerStr n)) materials with
    | some i => some i
    | none => findTargetIdxSpecOrder rest materials

/-- Result reported by an `applyTexture` call. -/
inductive ApplyOutcome
  | applied
  | noMatchingMaterial
  deriving DecidableEq

/-- The slot-based `applyTexture` (ProductViewer with texture slots): resolve
the slot through the static map (falling back to the raw slot name as a
fragment), find the first matching material, and either update it or warn
`No material found` leaving every material untouched. -/
def applyTextureSlot (materials : List ViewerMaterial) (slotName : Str) (newTexture : Nat) :
    ApplyOutcome × List ViewerMaterial :=
  let targetNames := (materialTargetMap slotName).getD [slotName]
  match findTargetIdx targetNames materials with
  | none => (.noMatchingMaterial, materials)
  | some i => (.applied, modifyAt (applyNewTexture newTexture) materials i)

/-- The whole-surface `applyTexture` (ProductViewer without slots): look for
a material whose name contains `telaio`, `custom` or `frame`. -/
def frameTargetPred (m : ViewerMaterial) : Bool :=
  jsIncludes (lowerStr m.name) (str "telaio") ||
  jsIncludes (lowerStr m.name) (str "custom") ||
  jsIncludes (lowerStr m.name) (str "frame")

/-- The whole-surface `applyTexture`: update the first `telaio`/`custom`/
`frame` material when one exists, otherwise every reported material. -/
def applyTextureWhole (materials : List ViewerMaterial) (newTexture : Nat) :
    List ViewerMaterial :=
  match findFirstIdx frameTargetPred materials with
  | some i => modifyAt (applyNewTexture newTexture) materials i
  | none => materials.map (applyNewTexture newTexture)

/-- Extension test of the classifier: `f.name.toLowerCase().endsWith(extn)`. -/
def hasExt (extn : Str) (f : InMemoryFile) : Bool :=
  jsEndsWith (lowerStr f.name) extn

/-- The resource map `processFiles` builds for the `.gltf` branch:
`files.forEach(f => resourceMap.set(f.name, f))`. -/
def buildResourceMap (files : List InMemoryFile) : ResourcePool :=
  files.foldl (fun m f => mapSet m f.name f) []

/-- Outcome of the file-classification step of `processFiles` (after ZIP
expansion): the primary model file, or `NoModelFound`. -/
inductive ClassifiedBatch
  | glbModel (f : InMemoryFile)
  | gltfModel (f : InMemoryFile) (resources : ResourcePool)
  | noModelFound
  deriving DecidableEq

/-- The classification step of `processFiles`: the first `.glb` file wins
outright; otherwise the first `.gltf` file becomes the primary with the whole
batch indexed as its resource pool; otherwise `NoModelFound` and no asset
reference is produced. -/
def classifyFiles (files : List InMemoryFile) : ClassifiedBatch :=
  match files.find? (hasExt (str ".glb")) with
  | some glbFile => .glbModel glbFile
  | none =>
    match files.find? (hasExt (str ".gltf")) with
    | some gltfFile => .gltfModel gltfFile (buildResourceMap files)
    | none => .noModelFound

/-- One entry of a ZIP archive as JSZip enumerates it. -/
structure ZipEntry where
  relativePath : Str
  dir : Bool
  payload : Nat
  deriving DecidableEq

/-- The flattened name `processFiles` gives an extracted entry:
`relativePath.split('/').pop() || relativePath`. -/
def entryFileName (relativePath : Str) : Str :=
  match (splitBy (fun c => c = '/') relativePath).getLast? with
  | some fn => if fn = [] then relativePath else fn
  | none => relativePath

/-- The extraction loop of `processFiles`: skip directory entries and
materialize every other entry as an in-memory file under its flattened
name. -/
def extractZip (entries : List ZipEntry) : List InMemoryFile :=
  (entries.filter (fun e => !e.dir)).map
    (fun e => { name := entryFileName e.relativePath, payload := e.payload })

/-- The archive expander: `zip.loadAsync` either yields the entry list or
throws (`none`, a corrupt container); on a throw the whole operation fails
and no partial file list reaches the later stages. -/
def expandArchive : Option (List ZipEntry) → Except Unit (List InMemoryFile)
  | none => .error ()
  | some entries => .ok (extractZip entries)

/-- Is the character a hex digit (the `[a-f\d]` class, case-insensitive)? -/
def isHexDigitChar (c : Char) : Bool :=
  (decide (48 ≤ c.toNat) && decide (c.toNat ≤ 57)) ||
  (decide (97 ≤ c.toNat) && decide (c.toNat ≤ 102)) ||
  (decide (65 ≤ c.toNat) && decide (c.toNat ≤ 70))

/-- Value of a hex digit as `parseInt(…, 16)` sees it (`0` outside the hex
range, which the regex guard rules out). -/
def hexDigitValue (c : Char) : Nat :=
  if 48 ≤ c.toNat ∧ c.toNat ≤ 57 then c.toNat - 48
  else if 97 ≤ c.toNat ∧ c.toNat ≤ 102 then c.toNat - 87
  else if 65 ≤ c.toNat ∧ c.toNat ≤ 70 then c.toNat - 55
  else 0

/-- JS `parseInt` of a two-hex-digit group. -/
def hexPairValue (c1 c2 : Char) : Nat := 16 * hexDigitValue c1 + hexDigitValue c2

/-- The regex match `/^#?([a-f\d]{2})([a-f\d]{2})([a-f\d]{2})$/i.exec(hex)`:
strip one optional leading `#`, then require exactly six hex digits. -/
def matchHexColor (hex : Str) : Option (Char × Char × Char × Char × Char × Char) :=
  let body := match hex with
    | '#' :: rest => rest
    | s => s
  match body with
  | [r1, r2, g1, g2, b1, b2] =>
    if [r1, r2, g1, g2, b1, b2].all isHexDigitChar then some (r1, r2, g1, g2, b1, b2)
    else none
  | _ => none

/-- Function `hexToRgbNormalized` from `ColorPicker`: a matched hex color becomes the
three channel values divided by 255 with alpha 1; anything else becomes
opaque white. -/
def hexToRgbNormalized (hex : Str) : List Rat :=
  match matchHexColor hex with
  | none => [1, 1, 1, 1]
  | some (r1, r2, g1, g2, b1, b2) =>
    [(hexPairValue r1 r2 : Rat) / 255,
     (hexPairValue g1 g2 : Rat) / 255,
     (hexPairValue b1 b2 : Rat) / 255,
     1]

/-- Function `applyColor` from `ColorPicker`: find the material with exactly the given
name and set its base-color factor to the converted color; no match is a
silent no-op. -/
def applyColor (materials : List ViewerMaterial) (materialName : Str) (hexColor : Str) :
    List ViewerMaterial :=
  match findFirstIdx (fun m => decide (m.name = materialName)) materials with
  | none => materials
  | some i =>
    modifyAt
      (fun m => { m with pbrMetallicRoughness :=
        { m.pbrMetallicRoughness with baseColorFactor := hexToRgbNormalized hexColor } })
      materials i

/-! ### Helper lemmas -/

theorem findFirstIdx_eq_none {α : Type} (p : α → Bool) (l : List α) :
    findFirstIdx p l = none ↔ ∀ a ∈ l, p a = false := by
  induction l with
  | nil => simp [findFirstIdx]
  | cons a rest ih =>
    by_cases h : p a = true
    · simp [findFirstIdx, h]
    · have hfalse : p a = false := by simpa using h
      constructor
      · intro hmap b hb
        rcases List.mem_cons.mp hb with rfl | hb'
        · exact hfalse
        · refine ih.mp ?_ b hb'
          simp only [findFirstIdx, if_neg h] at hmap
          cases hfi : findFirstIdx p rest with
          | none => rfl
          | some i => rw [hfi] at hmap; simp at hmap
      · intro hall
        have hrest : findFirstIdx p rest = none :=
          ih.mpr (fun b hb => hall b (List.mem_cons_of_mem _ hb))
        simp [findFirstIdx, h, hrest]

theorem findFirstIdx_some {α : Type} (p : α → Bool) (l : List α) (i : Nat)
    (h : findFirstIdx p l = some i) :
    (∃ a, l.get? i = some a ∧ p a = true) ∧
      ∀ j, j < i → ∀ a, l.get? j = some a → p a = false := by
  induction l generalizing i with
  | nil => simp [findFirstIdx] at h
  | cons a rest ih =>
    by_cases hpa : p a
    · simp only [findFirstIdx, hpa, if_pos] at h
      cases h
      exact ⟨⟨a, rfl, hpa⟩, fun j hj => by omega⟩
    · simp only [findFirstIdx, hpa, if_neg, Bool.not_eq_true] at h
      cases hrest : findFirstIdx p rest with
      | none => rw [hrest] at h; simp at h
      | some i' =>
        rw [hrest] at h
        have hi : i' + 1 = i := by simpa using h
        subst hi
        obtain ⟨⟨b, hb, hpb⟩, hbefore⟩ := ih i' hrest
        refine ⟨⟨b, by simpa using hb, hpb⟩, ?_⟩
        intro j hj c hc
        cases j with
        | zero => simp at hc; cases hc; simpa using hpa
        | succ j' =>
          exact hbefore j' (by omega) c (by simpa using hc)

theorem modifyAt_get? {α : Type} (f : α → α) (l : List α) (i j : Nat) :
    (modifyAt f l i).get? j =
      if i = j then (l.get? j).map f else l.get? j := by
  induction l generalizing i j with
  | nil => simp [modifyAt]
  | cons a rest ih =>
    cases i with
    | zero =>
      cases j <;> simp [modifyAt]
    | succ i' =>
      cases j with
      | zero => simp [modifyAt]
      | succ j' => simpa [modifyAt, Nat.succ_inj] using ih i' j'

theorem scanEntries_cons (filename : Str) (e : Str × InMemoryFile) (rest : ResourcePool) :
    scanEntries filename (e :: rest) =
      if entryMatches filename e then some e.2 else scanEntries filename rest := by
  obtain ⟨k, v⟩ := e
  by_cases h1 : lowerStr k = lowerStr filename
  · simp [scanEntries, entryMatches, h1]
  · by_cases h2 : jsEndsWith k filename
    · simp [scanEntries, entryMatches, h1, h2]
    · simp [scanEntries, entryMatches, h1, h2]

theorem scanEntries_eq_none (filename : Str) (pool : ResourcePool)
    (h : ∀ e ∈ pool, entryMatches filename e = false) :
    scanEntries filename pool = none := by
  induction pool with
  | nil => rfl
  | cons e rest ih =>
    rw [scanEntries_cons, h e (List.mem_cons_self e rest)]
    simpa using ih (fun e' he' => h e' (List.mem_cons_of_mem _ he'))

theorem scanEntries_first (filename : Str) (pre post : ResourcePool)
    (k : Str) (v : InMemoryFile)
    (hpre : ∀ e ∈ pre, entryMatches filename e = false)
    (hmatch : entryMatches filename (k, v) = true) :
    scanEntries filename (pre ++ (k, v) :: post) = some v := by
  induction pre with
  | nil => simp [scanEntries_cons, hmatch]
  | cons e rest ih =>
    rw [List.cons_append, scanEntries_cons, hpre e (List.mem_cons_self e rest)]
    simp only [if_neg Bool.false_ne_true]
    exact ih (fun e' he' => hpre e' (List.mem_cons_of_mem _ he'))

/-- Does the patch step leave this reference free of the `URIError` path?
(The reference is skipped, or resolves, or is a clean miss.) -/
def refNoDecodeFailure (pool : ResourcePool) : Option UriRef → Bool
  | some (.plain s) =>
    if !s.isEmpty && !jsStartsWith s (str "data:") then
      match getResource pool s with
      | .decodeFailure => false
      | _ => true
    else true
  | _ => true

/-- Is this reference an external (truthy, non-`data:`) URI that no lookup
tier matches? -/
def unmatchedExternal (pool : ResourcePool) : Option UriRef → Bool
  | some (.plain s) =>
    (!s.isEmpty && !jsStartsWith s (str "data:")) &&
      (match getResource pool s with
       | .missing => true
       | _ => false)
  | _ => false

/-- The entry an unmatched external reference contributes to the missing
list: its original URI string. -/
def refMissingEntry (pool : ResourcePool) : Option UriRef → Option Str
  | some (.plain s) =>
    if unmatchedExternal pool (some (.plain s)) then some s else none
  | _ => none

/-- The original URI strings of the unmatched external references, in
document order. -/
def missingUris (pool : ResourcePool) (us : List (Option UriRef)) : List Str :=
  us.filterMap (refMissingEntry pool)

theorem refMissingEntry_of_missing (pool : ResourcePool) (s : Str)
    (hg : (!s.isEmpty && !jsStartsWith s (str "data:")) = true)
    (hres : getResource pool s = .missing) :
    refMissingEntry pool (some (.plain s)) = some s := by
  simp [refMissingEntry, unmatchedExternal, hres, hg]

theorem refMissingEntry_of_found (pool : ResourcePool) (s : Str) (f : InMemoryFile)
    (hres : getResource pool s = .found f) :
    refMissingEntry pool (some (.plain s)) = none := by
  simp [refMissingEntry, unmatchedExternal, hres]

theorem refMissingEntry_of_skip (pool : ResourcePool) (s : Str)
    (hg : (!s.isEmpty && !jsStartsWith s (str "data:")) = false) :
    refMissingEntry pool (some (.plain s)) = none := by
  simp [refMissingEntry, unmatchedExternal, hg]

theorem patchRef_ok_spec (pool : ResourcePool) (u : Option UriRef)
    (missing : List Str) (u' : Option UriRef) (missing' : List Str)
    (h : patchRef pool u missing = .ok (u', missing')) :
    missing' = missing ++ (refMissingEntry pool u).toList ∧
      (unmatchedExternal pool u = true → u' = u) := by
  match u with
  | none =>
    simp only [patchRef] at h
    cases h
    simp [refMissingEntry, unmatchedExternal]
  | some (.objectUrl f) =>
    simp only [patchRef] at h
    cases h
    simp [refMissingEntry, unmatchedExternal]
  | some (.plain s) =>
    simp only [patchRef] at h
    by_cases hg : (!s.isEmpty && !jsStartsWith s (str "data:")) = true
    · rw [if_pos hg] at h
      cases hres : getResource pool s with
      | found f =>
        rw [hres] at h
        cases h
        refine ⟨by simp [refMissingEntry_of_found pool s f hres], fun hum => ?_⟩
        simp [unmatchedExternal, hres] at hum
      | missing =>
        rw [hres] at h
        cases h
        exact ⟨by simp [refMissingEntry_of_missing pool s hg hres], fun _ => rfl⟩
      | decodeFailure => rw [hres] at h; cases h
    · rw [if_neg hg] at h
      cases h
      refine ⟨?_, fun _ => rfl⟩
      have hg' : (!s.isEmpty && !jsStartsWith s (str "data:")) = false := by
        simpa using hg
      simp [refMissingEntry_of_skip pool s hg']

theorem patchRef_ok_of_noFailure (pool : ResourcePool) (u : Option UriRef)
    (missing : List Str) (h : refNoDecodeFailure pool u = true) :
    ∃ u', patchRef pool u missing =
      .ok (u', missing ++ (refMissingEntry pool u).toList) := by
  match u with
  | none => exact ⟨none, by simp [patchRef, refMissingEntry]⟩
  | some (.objectUrl f) => exact ⟨some (.objectUrl f), by simp [patchRef, refMissingEntry]⟩
  | some (.plain s) =>
    by_cases hg : (!s.isEmpty && !jsStartsWith s (str "data:")) = true
    · cases hres : getResource pool s with
      | found f =>
        refine ⟨some (.objectUrl f), ?_⟩
        simp [patchRef, hg, hres, refMissingEntry_of_found pool s f hres]
      | missing =>
        refine ⟨some (.plain s), ?_⟩
        simp [patchRef, hg, hres, refMissingEntry_of_missing pool s hg hres]
      | decodeFailure =>
        exfalso
        simp only [refNoDecodeFailure, if_pos hg, hres] at h
        exact Bool.false_ne_true h
    · refine ⟨some (.plain s), ?_⟩
      have hg' : (!s.isEmpty && !jsStartsWith s (str "data:")) = false := by
        simpa using hg
      rw [refMissingEntry_of_skip pool s hg']
      simp [patchRef, hg']

theorem patchRefList_ok_of_noFailure (pool : ResourcePool) (us : List (Option UriRef))
    (missing0 : List Str) (h : ∀ u ∈ us, refNoDecodeFailure pool u = true) :
    ∃ us', patchRefList pool us missing0 = .ok (us', missing0 ++ missingUris pool us) := by
  induction us generalizing missing0 with
  | nil => exact ⟨[], by simp [patchRefList, missingUris]⟩
  | cons u rest ih =>
    obtain ⟨u', hu⟩ :=
      patchRef_ok_of_noFailure pool u missing0 (h u (List.mem_cons_self u rest))
    obtain ⟨rest', hrest⟩ :=
      ih (missing0 ++ (refMissingEntry pool u).toList)
        (fun v hv => h v (List.mem_cons_of_mem _ hv))
    refine ⟨u' :: rest', ?_⟩
    simp only [patchRefList, hu, hrest]
    rw [List.append_assoc]
    congr 2
    simp [missingUris, List.filterMap_cons]
    cases hr : refMissingEntry pool u <;> simp

theorem patchRefList_ok_spec (pool : ResourcePool) (us : List (Option UriRef))
    (missing0 : List Str) (us' : List (Option UriRef)) (missing' : List Str)
    (h : patchRefList pool us missing0 = .ok (us', missing')) :
    missing' = missing0 ++ missingUris pool us ∧
      us'.length = us.length ∧
      ∀ i u, us.get? i = some u → unmatchedExternal pool u = true →
        us'.get? i = some u := by
  induction us generalizing missing0 us' missing' with
  | nil =>
    simp only [patchRefList] at h
    cases h
    simp [missingUris]
  | cons u rest ih =>
    cases hu : patchRef pool u missing0 with
    | error e => simp only [patchRefList, hu] at h; cases h
    | ok p =>
      obtain ⟨u1, m1⟩ := p
      simp only [patchRefList, hu] at h
      cases hrest : patchRefList pool rest m1 with
      | error e => simp only [hrest] at h; cases h
      | ok q =>
        obtain ⟨rest1, m2⟩ := q
        simp only [hrest, Except.ok.injEq, Prod.mk.injEq] at h
        obtain ⟨h1, h2⟩ := h
        subst h1
        subst h2
        obtain ⟨hm1, hfix⟩ := patchRef_ok_spec pool u missing0 u1 m1 hu
        obtain ⟨hm2, hlen, hpt⟩ := ih m1 rest1 m2 hrest
        subst hm1
        refine ⟨?_, by simpa using hlen, ?_⟩
        · rw [hm2, List.append_assoc]
          congr 2
          simp [missingUris, List.filterMap_cons]
          cases hr : refMissingEntry pool u <;> simp
        · intro i v hv hum
          cases i with
          | zero =>
            simp only [List.get?] at hv
            cases hv
            simp [hfix hum]
          | succ i' =>
            simpa using hpt i' v (by simpa using hv) hum

theorem mapGet_mapSet (m : ResourcePool) (k k' : Str) (v : InMemoryFile) :
    mapGet (mapSet m k v) k' = if k = k' then some v else mapGet m k' := by
  induction m with
  | nil => simp [mapSet, mapGet]
  | cons e rest ih =>
    obtain ⟨k0, v0⟩ := e
    by_cases h0 : k0 = k
    · subst h0
      by_cases h1 : k0 = k' <;> simp [mapSet, mapGet, h1]
    · simp only [mapSet, if_neg h0, mapGet]
      by_cases h1 : k0 = k'
      · subst h1
        rw [if_pos rfl, if_neg (fun hkk => h0 hkk.symm)]
        simp [mapGet]
      · rw [if_neg h1, if_neg h1, ih]

theorem mapGet_foldl_mapSet (files : List InMemoryFile) (m : ResourcePool) (k : Str) :
    mapGet (files.foldl (fun acc f => mapSet acc f.name f) m) k =
      (files.reverse.find? (fun f => decide (f.name = k))).or (mapGet m k) := by
  induction files generalizing m with
  | nil => simp
  | cons f rest ih =>
    simp only [List.foldl_cons, List.reverse_cons]
    rw [ih, List.find?_append, Option.or_assoc]
    congr 1
    rw [mapGet_mapSet]
    by_cases h : f.name = k
    · simp [h]
    · simp [h]

theorem mapGet_buildResourceMap (files : List InMemoryFile) (k : Str) :
    mapGet (buildResourceMap files) k =
      files.reverse.find? (fun f => decide (f.name = k)) := by
  rw [buildResourceMap, mapGet_foldl_mapSet]
  simp [mapGet, Option.or_none]

theorem splitAux_ne_nil (sep : Char → Bool) (s acc : Str) :
    splitAux sep s acc ≠ [] := by
  induction s generalizing acc with
  | nil => simp [splitAux]
  | cons c rest ih =>
    by_cases h : sep c = true <;> simp [splitAux, h, ih]

theorem splitAux_getLast_noSep (sep : Char → Bool) (s acc : Str)
    (h : ∀ c ∈ s, sep c = false) :
    (splitAux sep s acc).getLast? = some (acc.reverse ++ s) := by
  induction s generalizing acc with
  | nil => simp [splitAux]
  | cons c rest ih =>
    have hc : sep c = false := h c (List.mem_cons_self c rest)
    rw [splitAux, if_neg (by simp [hc]),
      ih (c :: acc) (fun d hd => h d (List.mem_cons_of_mem _ hd))]
    simp

theorem splitAux_getLast_append (sep : Char → Bool) (xs ys : Str) (c : Char)
    (acc : Str) (hc : sep c = true) :
    (splitAux sep (xs ++ c :: ys) acc).getLast? = (splitAux sep ys []).getLast? := by
  induction xs generalizing acc with
  | nil =>
    rw [List.nil_append, splitAux, if_pos hc]
    cases hsp : splitAux sep ys [] with
    | nil => exact absurd hsp (splitAux_ne_nil sep ys [])
    | cons b t => exact List.getLast?_cons_cons
  | cons x xs' ih =>
    rw [List.cons_append, splitAux]
    by_cases hx : sep x = true
    · rw [if_pos hx]
      cases hsp : splitAux sep (xs' ++ c :: ys) [] with
      | nil => exact absurd hsp (splitAux_ne_nil sep _ [])
      | cons b t => rw [List.getLast?_cons_cons, ← hsp, ih []]
    · rw [if_neg hx, ih (x :: acc)]

theorem entryFileName_of_noSlash (p : Str) (h : ∀ c ∈ p, (c == '/') = false) :
    entryFileName p = p := by
  rw [entryFileName, splitBy, splitAux_getLast_noSep _ p [] (by simpa using h)]
  simp only [List.reverse_nil, List.nil_append]
  by_cases hp : p = [] <;> simp [hp]

theorem entryFileName_basename (dirs base : Str)
    (hbase : ∀ c ∈ base, (c == '/') = false) (hne : base ≠ []) :
    entryFileName (dirs ++ '/' :: base) = base := by
  rw [entryFileName, splitBy, splitAux_getLast_append _ dirs base '/' [] (by simp),
    splitAux_getLast_noSep _ base [] (by simpa using hbase)]
  simp [hne]

theorem filterSpecGloss_idem (l : List Str) :
    filterSpecGloss (filterSpecGloss l) = filterSpecGloss l := by
  simp [filterSpecGloss, List.filter_filter]

theorem convertSpecGloss_idem (m : GltfMaterial) :
    convertSpecGloss (convertSpecGloss m) = convertSpecGloss m := by
  cases hext : m.extensions with
  | none =>
    have h1 : convertSpecGloss m = m := by simp [convertSpecGloss, hext]
    rw [h1]
    exact h1
  | some extBlock =>
    cases hsg : extBlock.specularGlossiness with
    | none =>
      have h1 : convertSpecGloss m = m := by simp [convertSpecGloss, hext, hsg]
      rw [h1]
      exact h1
    | some sg =>
      have h1 : (convertSpecGloss m).extensions =
          some { extBlock with specularGlossiness := none } := by
        simp [convertSpecGloss, hext, hsg]
      generalize hM : convertSpecGloss m = M at h1 ⊢
      simp [convertSpecGloss, h1]

theorem modifyAt_mem {α : Type} (f : α → α) (l : List α) (i : Nat) (x : α)
    (h : x ∈ modifyAt f l i) : x ∈ l ∨ ∃ a, a ∈ l ∧ x = f a := by
  induction l generalizing i with
  | nil => simp [modifyAt] at h
  | cons a rest ih =>
    cases i with
    | zero =>
      rcases List.mem_cons.mp h with rfl | hr
      · exact Or.inr ⟨a, List.mem_cons_self a rest, rfl⟩
      · exact Or.inl (List.mem_cons_of_mem _ hr)
    | succ i' =>
      rcases List.mem_cons.mp h with rfl | hr
      · exact Or.inl (List.mem_cons_self x rest)
      · rcases ih i' hr with hl | ⟨b, hb, hfb⟩
        · exact Or.inl (List.mem_cons_of_mem _ hl)
        · exact Or.inr ⟨b, List.mem_cons_of_mem _ hb, hfb⟩

theorem migrateDiffuseTexture_texture (p : PbrMetallicRoughness) (sg : SpecGloss) :
    (migrateDiffuseTexture p sg).baseColorTexture =
      (match sg.diffuseTexture with
       | some t => some t
       | none => p.baseColorTexture) := by
  cases h : sg.diffuseTexture <;> simp [migrateDiffuseTexture, h]

theorem migrateDiffuseTexture_rest (p : PbrMetallicRoughness) (sg : SpecGloss) :
    (migrateDiffuseTexture p sg).baseColorFactor = p.baseColorFactor ∧
    (migrateDiffuseTexture p sg).roughnessFactor = p.roughnessFactor ∧
    (migrateDiffuseTexture p sg).metallicFactor = p.metallicFactor := by
  cases h : sg.diffuseTexture <;> simp [migrateDiffuseTexture, h]

theorem migrateDiffuseFactor_factor (p : PbrMetallicRoughness) (sg : SpecGloss) :
    (migrateDiffuseFactor p sg).baseColorFactor =
      (match sg.diffuseFactor with
       | some f => some f
       | none => p.baseColorFactor) := by
  cases h : sg.diffuseFactor <;> simp [migrateDiffuseFactor, h]

theorem migrateDiffuseFactor_rest (p : PbrMetallicRoughness) (sg : SpecGloss) :
    (migrateDiffuseFactor p sg).baseColorTexture = p.baseColorTexture ∧
    (migrateDiffuseFactor p sg).roughnessFactor = p.roughnessFactor ∧
    (migrateDiffuseFactor p sg).metallicFactor = p.metallicFactor := by
  cases h : sg.diffuseFactor <;> simp [migrateDiffuseFactor, h]

theorem defaultRoughness_rough (p : PbrMetallicRoughness) :
    (defaultRoughness p).roughnessFactor =
      (if p.roughnessFactor = (none : Option Rat) then some (1 / 2 : Rat)
       else p.roughnessFactor) := by
  by_cases h : p.roughnessFactor = (none : Option Rat) <;> simp [defaultRoughness, h]

theorem defaultRoughness_rest (p : PbrMetallicRoughness) :
    (defaultRoughness p).baseColorTexture = p.baseColorTexture ∧
    (defaultRoughness p).baseColorFactor = p.baseColorFactor ∧
    (defaultRoughness p).metallicFactor = p.metallicFactor := by
  by_cases h : p.roughnessFactor = (none : Option Rat) <;> simp [defaultRoughness, h]

theorem defaultMetallic_metal (p : PbrMetallicRoughness) :
    (defaultMetallic p).metallicFactor =
      (if p.metallicFactor = (none : Option Rat) then some (0 : Rat)
       else p.metallicFactor) := by
  by_cases h : p.metallicFactor = (none : Option Rat) <;> simp [defaultMetallic, h]

theorem defaultMetallic_rest (p : PbrMetallicRoughness) :
    (defaultMetallic p).baseColorTexture = p.baseColorTexture ∧
    (defaultMetallic p).baseColorFactor = p.baseColorFactor ∧
    (defaultMetallic p).roughnessFactor = p.roughnessFactor := by
  by_cases h : p.metallicFactor = (none : Option Rat) <;> simp [defaultMetallic, h]

theorem convertSpecGloss_eq (m : GltfMaterial) (extBlock : MaterialExtensions)
    (sg : SpecGloss) (hext : m.extensions = some extBlock)
    (hsg : extBlock.specularGlossiness = some sg) :
    convertSpecGloss m =
      { m with
        pbrMetallicRoughness := some
          (defaultMetallic (defaultRoughness
            (migrateDiffuseFactor (migrateDiffuseTexture (pbrOrDefault m) sg) sg))),
        extensions := some { extBlock with specularGlossiness := none } } := by
  simp [convertSpecGloss, hext, hsg]

theorem normalizeMaterials_buffers (doc : GltfDocument) :
    (normalizeMaterials doc).buffers = doc.buffers := by
  cases h : doc.materials <;> simp [normalizeMaterials, h]

theorem normalizeMaterials_images (doc : GltfDocument) :
    (normalizeMaterials doc).images = doc.images := by
  cases h : doc.materials <;> simp [normalizeMaterials, h]

theorem patchOptRefList_ok (pool : ResourcePool) (o : Option (List (Option UriRef)))
    (missing0 : List Str)
    (h : ∀ u ∈ o.getD [], refNoDecodeFailure pool u = true) :
    ∃ o', patchOptRefList pool o missing0 =
        .ok (o', missing0 ++ missingUris pool (o.getD [])) ∧
      ∀ i u, (o.getD []).get? i = some u → unmatchedExternal pool u = true →
        (o'.getD []).get? i = some u := by
  cases o with
  | none =>
    refine ⟨none, ?_, ?_⟩
    · simp [patchOptRefList, missingUris]
    · intro i u hu
      simp at hu
  | some l =>
    obtain ⟨l', hl⟩ := patchRefList_ok_of_noFailure pool l missing0 (by simpa using h)
    obtain ⟨-, -, hpt⟩ :=
      patchRefList_ok_spec pool l missing0 l' (missing0 ++ missingUris pool l) hl
    refine ⟨some l', ?_, ?_⟩
    · simp [patchOptRefList, hl]
    · intro i u hu hum
      simpa using hpt i u (by simpa using hu) hum

theorem hexDigitValue_le (c : Char) : hexDigitValue c ≤ 15 := by
  unfold hexDigitValue
  split_ifs <;> omega

theorem hexPairValue_le (c1 c2 : Char) : hexPairValue c1 c2 ≤ 255 := by
  have h1 := hexDigitValue_le c1
  have h2 := hexDigitValue_le c2
  unfold hexPairValue
  omega

/-! ### Claim theorems -/

/-- C1 counterexample: the claim's four-tier order is refuted.  The pool
`{TEXTURE.PNG, texture.png}` with reference `tex/texture.png` has a
case-sensitive basename match (`texture.png`), which the claim's tier 2 would
select (`getResourceSpec` does); but the patcher's `getResource` has no
case-sensitive basename tier and returns the earlier-inserted
case-insensitive-only match `TEXTURE.PNG`. -/
theorem getResource_caseSensitive_tier_refuted :
    getResource
      [(str "TEXTURE.PNG", ⟨str "TEXTURE.PNG", 1⟩),
       (str "texture.png", ⟨str "texture.png", 2⟩)]
      (str "tex/texture.png") = .found ⟨str "TEXTURE.PNG", 1⟩ ∧
    getResourceSpec
      [(str "TEXTURE.PNG", ⟨str "TEXTURE.PNG", 1⟩),
       (str "texture.png", ⟨str "texture.png", 2⟩)]
      (str "tex/texture.png") = some ⟨str "texture.png", 2⟩ ∧
    (⟨str "TEXTURE.PNG", 1⟩ : InMemoryFile) ≠ ⟨str "texture.png", 2⟩ := by
  decide

/-- C1 amended: the resource lookup tries an exact filename match first, and
otherwise — after URL-decoding and stripping the path prefix to a non-empty
basename — runs a single merged scan over the pool in insertion order, in
which every key is tested for case-insensitive basename equality and then for
ending with the basename; the first key passing either test wins, and no
key matching earlier is ever skipped.  There is no separate case-sensitive
basename tier, and the case-insensitive and suffix tests are interleaved per
key rather than tiered. -/
theorem getResource_resolution_order (pool : ResourcePool)
    (uri cleanUri filename : Str) :
    (∀ f, mapGet pool uri = some f → getResource pool uri = .found f) ∧
    (mapGet pool uri = none → decodeURIComponent uri = some cleanUri →
      (splitBy isSep cleanUri).getLast? = some filename → filename ≠ [] →
      ((∀ e ∈ pool, entryMatches filename e = false) →
        getResource pool uri = .missing) ∧
      (∀ pre post (k : Str) (v : InMemoryFile), pool = pre ++ (k, v) :: post →
        (∀ e ∈ pre, entryMatches filename e = false) →
        entryMatches filename (k, v) = true →
        getResource pool uri = .found v)) := by
  constructor
  · intro f hf
    simp [getResource, hf]
  · intro h1 h2 h3 h4
    constructor
    · intro hall
      have hscan := scanEntries_eq_none filename pool hall
      simp [getResource, h1, h2, h3, h4, hscan]
    · intro pre post k v hpool hpre hmatch
      subst hpool
      have hscan := scanEntries_first filename pre post k v hpre hmatch
      simp [getResource, h1, h2, h3, h4, hscan]

/-- C1 witness: instance of `getResource_resolution_order` at a concrete pool
and reference with no matching entry. -/
theorem getResource_resolution_order_witness :
    getResource [(str "other.bin", ⟨str "other.bin", 1⟩)] (str "dir/tex.png") =
      .missing := by
  have h :=
    (getResource_resolution_order [(str "other.bin", ⟨str "other.bin", 1⟩)]
      (str "dir/tex.png") (str "dir/tex.png") (str "tex.png")).2
  exact (h (by decide) (by decide) (by decide) (by decide)).1 (by decide)

/-- C2 counterexample: the claimed scan order (fragments outer, materials
inner) is refuted.  With fragments `["a","b"]` and materials `["xb","xa"]`,
the claimed order selects index 1 (`"xa"`, via the first fragment `"a"`), as
`findTargetIdxSpecOrder` shows; the source's `materials.find(m =>
targetNames.some(…))` selects index 0 (`"xb"`) because materials are the
outer loop. -/
theorem applyTexture_scan_order_refuted :
    findTargetIdx [str "a", str "b"]
      [⟨str "xb", {}⟩, ⟨str "xa", {}⟩] = some 0 ∧
    findTargetIdxSpecOrder [str "a", str "b"]
      [⟨str "xb", {}⟩, ⟨str "xa", {}⟩] = some 1 := by
  decide

/-- C2 amended: the resolver's outer loop is over the reported materials in
order and the candidate fragments are the inner scan: the selected material
is the first reported material whose name contains *any* candidate fragment
case-insensitively, every earlier material matching no fragment.  The claim's
concrete case still holds: with candidates `["logo.001","logo_front"]` and
materials `["Body","logo_front_L"]`, index 1 (`"logo_front_L"`) is selected,
not `"Body"`. -/
theorem findTargetIdx_material_outer (targetNames : List Str)
    (materials : List ViewerMaterial) (i : Nat)
    (h : findTargetIdx targetNames materials = some i) :
    (∃ m, materials.get? i = some m ∧ nameMatchesTargets targetNames m = true ∧
      ∀ j, j < i → ∀ m', materials.get? j = some m' →
        nameMatchesTargets targetNames m' = false) ∧
    findTargetIdx [str "logo.001", str "logo_front"]
      [⟨str "Body", {}⟩, ⟨str "logo_front_L", {}⟩] = some 1 := by
  obtain ⟨⟨m, hm, hpm⟩, hbefore⟩ := findFirstIdx_some _ materials i h
  exact ⟨⟨m, hm, hpm, hbefore⟩, by decide⟩

/-- C2 witness: instance of `findTargetIdx_material_outer` at the claim's
concrete mapping and material list. -/
theorem findTargetIdx_material_outer_witness :
    (∃ m, ([⟨str "Body", {}⟩, ⟨str "logo_front_L", {}⟩] :
          List ViewerMaterial).get? 1 = some m ∧
        nameMatchesTargets [str "logo.001", str "logo_front"] m = true ∧
        ∀ j, j < 1 → ∀ m',
          ([⟨str "Body", {}⟩, ⟨str "logo_front_L", {}⟩] :
            List ViewerMaterial).get? j = some m' →
          nameMatchesTargets [str "logo.001", str "logo_front"] m' = false) ∧
    findTargetIdx [str "logo.001", str "logo_front"]
      [⟨str "Body", {}⟩, ⟨str "logo_front_L", {}⟩] = some 1 :=
  findTargetIdx_material_outer [str "logo.001", str "logo_front"]
    [⟨str "Body", {}⟩, ⟨str "logo_front_L", {}⟩] 1 (by decide)

/-- The spec's concrete legacy example material:
`{"extensions":{"KHR_materials_pbrSpecularGlossiness":{"diffuseTexture":{"index":2},"diffuseFactor":[0.8,0.1,0.1,1]}}}`. -/
def legacyExampleMaterial : GltfMaterial :=
  { extensions := some
      { specularGlossiness := some
          { diffuseTexture := some ⟨2⟩,
            diffuseFactor := some [(0.8 : Rat), 0.1, 0.1, 1] } } }

/-- The converted form the spec gives for `legacyExampleMaterial`. -/
def legacyExampleConverted : GltfMaterial :=
  { pbrMetallicRoughness := some
      { baseColorTexture := some ⟨2⟩,
        baseColorFactor := some [(0.8 : Rat), 0.1, 0.1, 1],
        roughnessFactor := some (1 / 2 : Rat),
        metallicFactor := some (0 : Rat) },
    extensions := some { specularGlossiness := none } }

/-- C3: for every material carrying the legacy diffuse/specular extension,
normalization moves a present `diffuseTexture` to the base-color texture
(creating the `pbrMetallicRoughness` container when absent), moves a present
`diffuseFactor` to the base-color factor, defaults `roughnessFactor` to `0.5`
and `metallicFactor` to `0.0` only when those are not already set, and
deletes the legacy extension block; and the spec's concrete example material
converts exactly as stated. -/
theorem convertSpecGloss_migration :
    (∀ (m : GltfMaterial) (extBlock : MaterialExtensions) (sg : SpecGloss),
      m.extensions = some extBlock → extBlock.specularGlossiness = some sg →
      ∃ pbr, (convertSpecGloss m).pbrMetallicRoughness = some pbr ∧
        (∀ t, sg.diffuseTexture = some t → pbr.baseColorTexture = some t) ∧
        (sg.diffuseTexture = none →
          pbr.baseColorTexture = (pbrOrDefault m).baseColorTexture) ∧
        (∀ fac, sg.diffuseFactor = some fac → pbr.baseColorFactor = some fac) ∧
        (sg.diffuseFactor = none →
          pbr.baseColorFactor = (pbrOrDefault m).baseColorFactor) ∧
        ((pbrOrDefault m).roughnessFactor = none →
          pbr.roughnessFactor = some (1 / 2 : Rat)) ∧
        (∀ r, (pbrOrDefault m).roughnessFactor = some r →
          pbr.roughnessFactor = some r) ∧
        ((pbrOrDefault m).metallicFactor = none →
          pbr.metallicFactor = some (0 : Rat)) ∧
        (∀ x, (pbrOrDefault m).metallicFactor = some x →
          pbr.metallicFactor = some x) ∧
        (convertSpecGloss m).extensions =
          some { extBlock with specularGlossiness := none }) ∧
    convertSpecGloss legacyExampleMaterial = legacyExampleConverted := by
  constructor
  · intro m extBlock sg hext hsg
    rw [convertSpecGloss_eq m extBlock sg hext hsg]
    refine ⟨_, rfl, ?_, ?_, ?_, ?_, ?_, ?_, ?_, ?_, rfl⟩
    · intro t ht
      rw [(defaultMetallic_rest _).1, (defaultRoughness_rest _).1,
        (migrateDiffuseFactor_rest _ _).1, migrateDiffuseTexture_texture, ht]
    · intro ht
      rw [(defaultMetallic_rest _).1, (defaultRoughness_rest _).1,
        (migrateDiffuseFactor_rest _ _).1, migrateDiffuseTexture_texture, ht]
    · intro fac hfac
      rw [(defaultMetallic_rest _).2.1, (defaultRoughness_rest _).2.1,
        migrateDiffuseFactor_factor, hfac]
    · intro hfac
      rw [(defaultMetallic_rest _).2.1, (defaultRoughness_rest _).2.1,
        migrateDiffuseFactor_factor, hfac, (migrateDiffuseTexture_rest _ _).1]
    · intro hr
      rw [(defaultMetallic_rest _).2.2, defaultRoughness_rough,
        (migrateDiffuseFactor_rest _ _).2.1, (migrateDiffuseTexture_rest _ _).2.1,
        hr]
      simp
    · intro r hr
      rw [(defaultMetallic_rest _).2.2, defaultRoughness_rough,
        (migrateDiffuseFactor_rest _ _).2.1, (migrateDiffuseTexture_rest _ _).2.1,
        hr]
      simp
    · intro hmm
      rw [defaultMetallic_metal, (defaultRoughness_rest _).2.2,
        (migrateDiffuseFactor_rest _ _).2.2, (migrateDiffuseTexture_rest _ _).2.2,
        hmm]
      simp
    · intro x hx
      rw [defaultMetallic_metal, (defaultRoughness_rest _).2.2,
        (migrateDiffuseFactor_rest _ _).2.2, (migrateDiffuseTexture_rest _ _).2.2,
        hx]
      simp
  · rfl

/-- C3 witness: instance of `convertSpecGloss_migration` at the spec's
concrete legacy material. -/
theorem convertSpecGloss_migration_witness :
    ∃ pbr, (convertSpecGloss legacyExampleMaterial).pbrMetallicRoughness = some pbr ∧
      (∀ t, (some (⟨2⟩ : TextureRef)) = some t → pbr.baseColorTexture = some t) ∧
      ((some (⟨2⟩ : TextureRef)) = none →
        pbr.baseColorTexture = (pbrOrDefault legacyExampleMaterial).baseColorTexture) ∧
      (∀ fac, (some [(0.8 : Rat), 0.1, 0.1, 1]) = some fac →
        pbr.baseColorFactor = some fac) ∧
      ((some [(0.8 : Rat), 0.1, 0.1, 1]) = none →
        pbr.baseColorFactor = (pbrOrDefault legacyExampleMaterial).baseColorFactor) ∧
      ((pbrOrDefault legacyExampleMaterial).roughnessFactor = none →
        pbr.roughnessFactor = some (1 / 2 : Rat)) ∧
      (∀ r, (pbrOrDefault legacyExampleMaterial).roughnessFactor = some r →
        pbr.roughnessFactor = some r) ∧
      ((pbrOrDefault legacyExampleMaterial).metallicFactor = none →
        pbr.metallicFactor = some (0 : Rat)) ∧
      (∀ x, (pbrOrDefault legacyExampleMaterial).metallicFactor = some x →
        pbr.metallicFactor = some x) ∧
      (convertSpecGloss legacyExampleMaterial).extensions =
        some { specularGlossiness := none } :=
  convertSpecGloss_migration.1 legacyExampleMaterial
    { specularGlossiness := some
        { diffuseTexture := some ⟨2⟩,
          diffuseFactor := some [(0.8 : Rat), 0.1, 0.1, 1] } }
    { diffuseTexture := some ⟨2⟩,
      diffuseFactor := some [(0.8 : Rat), 0.1, 0.1, 1] }
    rfl rfl

/-- C4 counterexample: an unmatched reference can abort the whole patch.  A
buffer URI `"%"` with no exact pool match reaches `decodeURIComponent`, which
throws `URIError` on the malformed escape; the whole `patchGltfContent`
operation fails instead of reporting the reference as missing. -/
theorem patchGltfContent_unmatched_can_abort :
    patchGltfContent { buffers := some [some (.plain (str "%"))] } [] =
      .error () := rfl

/-- C4 amended: provided every external buffer/image reference either matches
exactly or URL-decodes without error, the patch operation as a whole
succeeds; every reference no tier matches is left untouched at its position
in the output document, and the missing report is exactly the original URI
strings of the unmatched references in document order (buffers before
images).  An unmatched reference whose URI is a malformed percent-encoding,
however, aborts the whole patch (see the counterexample). -/
theorem patchGltfContent_recoverable_misses (doc : GltfDocument) (pool : ResourcePool)
    (hb : ∀ u ∈ doc.buffers.getD [], refNoDecodeFailure pool u = true)
    (hi : ∀ u ∈ doc.images.getD [], refNoDecodeFailure pool u = true) :
    ∃ doc', patchGltfContent doc pool =
        .ok (doc', missingUris pool (doc.buffers.getD []) ++
          missingUris pool (doc.images.getD [])) ∧
      (∀ i u, (doc.buffers.getD []).get? i = some u →
        unmatchedExternal pool u = true → (doc'.buffers.getD []).get? i = some u) ∧
      (∀ i u, (doc.images.getD []).get? i = some u →
        unmatchedExternal pool u = true → (doc'.images.getD []).get? i = some u) := by
  obtain ⟨bufs', hb1, hb2⟩ := patchOptRefList_ok pool doc.buffers [] hb
  obtain ⟨imgs', hi1, hi2⟩ :=
    patchOptRefList_ok pool doc.images
      ([] ++ missingUris pool (doc.buffers.getD [])) hi
  refine ⟨normalizeMaterials { doc with buffers := bufs', images := imgs' },
    ?_, ?_, ?_⟩
  · simp only [patchGltfContent, hb1, hi1]
    simp
  · intro i u hu hum
    rw [normalizeMaterials_buffers]
    exact hb2 i u hu hum
  · intro i u hu hum
    rw [normalizeMaterials_images]
    exact hi2 i u hu hum

/-- C4 witness: instance of `patchGltfContent_recoverable_misses` at a document
with one resolvable and one missing buffer reference. -/
theorem patchGltfContent_recoverable_misses_witness :
    ∃ doc',
      patchGltfContent
        { buffers := some [some (.plain (str "model.bin")),
            some (.plain (str "gone.bin"))] }
        [(str "model.bin", ⟨str "model.bin", 3⟩)] =
        .ok (doc',
          missingUris [(str "model.bin", ⟨str "model.bin", 3⟩)]
            (({ buffers := some [some (.plain (str "model.bin")),
                some (.plain (str "gone.bin"))] } :
              GltfDocument).buffers.getD []) ++
          missingUris [(str "model.bin", ⟨str "model.bin", 3⟩)]
            (({ buffers := some [some (.plain (str "model.bin")),
                some (.plain (str "gone.bin"))] } :
              GltfDocument).images.getD [])) ∧
      (∀ i u,
        (({ buffers := some [some (.plain (str "model.bin")),
            some (.plain (str "gone.bin"))] } :
          GltfDocument).buffers.getD []).get? i = some u →
        unmatchedExternal [(str "model.bin", ⟨str "model.bin", 3⟩)] u = true →
        (doc'.buffers.getD []).get? i = some u) ∧
      (∀ i u,
        (({ buffers := some [some (.plain (str "model.bin")),
            some (.plain (str "gone.bin"))] } :
          GltfDocument).images.getD []).get? i = some u →
        unmatchedExternal [(str "model.bin", ⟨str "model.bin", 3⟩)] u = true →
        (doc'.images.getD []).get? i = some u) :=
  patchGltfContent_recoverable_misses
    { buffers := some [some (.plain (str "model.bin")),
        some (.plain (str "gone.bin"))] }
    [(str "model.bin", ⟨str "model.bin", 3⟩)]
    (by decide) (by decide)

/-- C5: a slot (or raw-fragment) request matching zero reported material
names makes `applyTexture` warn `NoMatchingMaterial` and mutate nothing:
the returned material list is the input list, so every material's base-color
texture and factor are identical before and after, with no partial
application. -/
theorem applyTextureSlot_noMatch_noMutation (materials : List ViewerMaterial)
    (slotName : Str) (newTexture : Nat)
    (h : ∀ m ∈ materials,
      nameMatchesTargets ((materialTargetMap slotName).getD [slotName]) m = false) :
    applyTextureSlot materials slotName newTexture =
      (.noMatchingMaterial, materials) := by
  have hidx : findTargetIdx ((materialTargetMap slotName).getD [slotName])
      materials = none :=
    (findFirstIdx_eq_none _ _).mpr h
  simp [applyTextureSlot, hidx]

/-- C5 witness: instance of `applyTextureSlot_noMatch_noMutation` at a slot
outside the static map whose fragment matches no material. -/
theorem applyTextureSlot_noMatch_noMutation_witness :
    applyTextureSlot [⟨str "Body", {}⟩] (str "logo_9") 3 =
      (.noMatchingMaterial, [⟨str "Body", {}⟩]) :=
  applyTextureSlot_noMatch_noMutation [⟨str "Body", {}⟩] (str "logo_9") 3
    (by decide)

/-- C6: the Legacy Material Normalizer is idempotent — running it twice gives
the same document as running it once, because the legacy extension key is
gone after the first run and the capability-list filter is idempotent. -/
theorem normalizeMaterials_idempotent (doc : GltfDocument) :
    normalizeMaterials (normalizeMaterials doc) = normalizeMaterials doc := by
  cases hmats : doc.materials with
  | none =>
    have h1 : normalizeMaterials doc = doc := by simp [normalizeMaterials, hmats]
    rw [h1]
    exact h1
  | some mats =>
    have h1 : normalizeMaterials doc =
        { doc with
          materials := some (mats.map convertSpecGloss),
          extensionsRequired := doc.extensionsRequired.map filterSpecGloss,
          extensionsUsed := doc.extensionsUsed.map filterSpecGloss } := by
      simp [normalizeMaterials, hmats]
    have hm : (mats.map convertSpecGloss).map convertSpecGloss =
        mats.map convertSpecGloss := by
      rw [List.map_map]
      exact List.map_congr_left (fun a _ => by
        simp [Function.comp, convertSpecGloss_idem])
    have hr : (doc.extensionsRequired.map filterSpecGloss).map filterSpecGloss =
        doc.extensionsRequired.map filterSpecGloss := by
      cases doc.extensionsRequired <;> simp [filterSpecGloss_idem]
    have hu : (doc.extensionsUsed.map filterSpecGloss).map filterSpecGloss =
        doc.extensionsUsed.map filterSpecGloss := by
      cases doc.extensionsUsed <;> simp [filterSpecGloss_idem]
    rw [h1]
    simp [normalizeMaterials, hm, hr, hu]

/-- C7 counterexample: a texture can be applied without the base-color factor
being reset to opaque white.  In the fallback-to-all case, a material whose
`pbrMetallicRoughness` lacks the `setBaseColorTexture` method but has an
existing `baseColorTexture` gets the new texture via `setTexture` while its
factor `[0,0,0,1]` is left untouched, not reset to `[1,1,1,1]`. -/
theorem applyTexture_factor_not_always_reset :
    applyTextureWhole
      [⟨str "body",
        { hasSetBaseColorTexture := false, baseColorTexture := some 1,
          baseColorFactor := [0, 0, 0, 1] }⟩] 7 =
      [⟨str "body",
        { hasSetBaseColorTexture := false, baseColorTexture := some 7,
          baseColorFactor := [0, 0, 0, 1] }⟩] ∧
    ([0, 0, 0, 1] : List Rat) ≠ [1, 1, 1, 1] := by
  decide

/-- C7 amended: when a texture is applied to a material through the
`setBaseColorTexture` capability, the base-color texture is replaced and the
factor is reset to opaque white exactly when the `setBaseColorFactor`
capability is also present; a material without the texture setter but with an
existing base-color texture has the texture swapped in place with its factor
untouched.  In the fallback-to-all whole-surface case every reported material
receives this same per-material update. -/
theorem applyNewTexture_update (newTexture : Nat) (m : ViewerMaterial)
    (materials : List ViewerMaterial) :
    (m.pbrMetallicRoughness.hasSetBaseColorTexture = true →
      (applyNewTexture newTexture m).pbrMetallicRoughness.baseColorTexture =
        some newTexture ∧
      (applyNewTexture newTexture m).pbrMetallicRoughness.baseColorFactor =
        (if m.pbrMetallicRoughness.hasSetBaseColorFactor then [1, 1, 1, 1]
         else m.pbrMetallicRoughness.baseColorFactor)) ∧
    (m.pbrMetallicRoughness.hasSetBaseColorTexture = false →
      m.pbrMetallicRoughness.baseColorTexture.isSome = true →
      (applyNewTexture newTexture m).pbrMetallicRoughness.baseColorTexture =
        some newTexture ∧
      (applyNewTexture newTexture m).pbrMetallicRoughness.baseColorFactor =
        m.pbrMetallicRoughness.baseColorFactor) ∧
    ((∀ m' ∈ materials, frameTargetPred m' = false) →
      applyTextureWhole materials newTexture =
        materials.map (applyNewTexture newTexture)) := by
  refine ⟨?_, ?_, ?_⟩
  · intro h
    simp [applyNewTexture, h]
  · intro h1 h2
    simp [applyNewTexture, h1, h2]
  · intro hall
    have hidx : findFirstIdx frameTargetPred materials = none :=
      (findFirstIdx_eq_none _ _).mpr hall
    simp [applyTextureWhole, hidx]

/-- C7 witness: instance of `applyNewTexture_update` at a material with both
setter capabilities and a batch with no `telaio`/`custom`/`frame` material. -/
theorem applyNewTexture_update_witness :
    ((⟨str "Body", { baseColorFactor := [0, 0, 0, 1] }⟩ :
        ViewerMaterial).pbrMetallicRoughness.hasSetBaseColorTexture = true →
      (applyNewTexture 7 ⟨str "Body", { baseColorFactor := [0, 0, 0, 1] }⟩
        ).pbrMetallicRoughness.baseColorTexture = some 7 ∧
      (applyNewTexture 7 ⟨str "Body", { baseColorFactor := [0, 0, 0, 1] }⟩
        ).pbrMetallicRoughness.baseColorFactor =
        (if (⟨str "Body", { baseColorFactor := [0, 0, 0, 1] }⟩ :
            ViewerMaterial).pbrMetallicRoughness.hasSetBaseColorFactor then
          [1, 1, 1, 1]
        else (⟨str "Body", { baseColorFactor := [0, 0, 0, 1] }⟩ :
            ViewerMaterial).pbrMetallicRoughness.baseColorFactor)) ∧
    ((⟨str "Body", { baseColorFactor := [0, 0, 0, 1] }⟩ :
        ViewerMaterial).pbrMetallicRoughness.hasSetBaseColorTexture = false →
      (⟨str "Body", { baseColorFactor := [0, 0, 0, 1] }⟩ :
        ViewerMaterial).pbrMetallicRoughness.baseColorTexture.isSome = true →
      (applyNewTexture 7 ⟨str "Body", { baseColorFactor := [0, 0, 0, 1] }⟩
        ).pbrMetallicRoughness.baseColorTexture = some 7 ∧
      (applyNewTexture 7 ⟨str "Body", { baseColorFactor := [0, 0, 0, 1] }⟩
        ).pbrMetallicRoughness.baseColorFactor =
        (⟨str "Body", { baseColorFactor := [0, 0, 0, 1] }⟩ :
          ViewerMaterial).pbrMetallicRoughness.baseColorFactor) ∧
    ((∀ m' ∈ ([⟨str "Body", { baseColorFactor := [0, 0, 0, 1] }⟩] :
        List ViewerMaterial), frameTargetPred m' = false) →
      applyTextureWhole [⟨str "Body", { baseColorFactor := [0, 0, 0, 1] }⟩] 7 =
        ([⟨str "Body", { baseColorFactor := [0, 0, 0, 1] }⟩] :
          List ViewerMaterial).map (applyNewTexture 7)) :=
  applyNewTexture_update 7 ⟨str "Body", { baseColorFactor := [0, 0, 0, 1] }⟩
    [⟨str "Body", { baseColorFactor := [0, 0, 0, 1] }⟩]

/-- C8: the classifier picks the first `.glb` file as primary whenever one is
present (even with a `.gltf` in the same batch), otherwise the first `.gltf`
with the whole batch indexed as its pool, and reports `NoModelFound` — with
no asset produced — exactly when the batch holds neither.  The model is a
pure function of the input list, which it does not alter. -/
theorem classifyFiles_precedence (files : List InMemoryFile) :
    ((∃ f, f ∈ files ∧ hasExt (str ".glb") f = true) →
      ∃ g, g ∈ files ∧ hasExt (str ".glb") g = true ∧
        classifyFiles files = .glbModel g) ∧
    ((∀ f ∈ files, hasExt (str ".glb") f = false) →
      (∃ f, f ∈ files ∧ hasExt (str ".gltf") f = true) →
      ∃ g, g ∈ files ∧ hasExt (str ".gltf") g = true ∧
        classifyFiles files = .gltfModel g (buildResourceMap files)) ∧
    (classifyFiles files = .noModelFound ↔
      ∀ f ∈ files, hasExt (str ".glb") f = false ∧
        hasExt (str ".gltf") f = false) := by
  refine ⟨?_, ?_, ?_⟩
  · intro ⟨f, hf, hglb⟩
    have hsome : (files.find? (hasExt (str ".glb"))).isSome :=
      List.find?_isSome.mpr ⟨f, hf, hglb⟩
    obtain ⟨g, hg⟩ := Option.isSome_iff_exists.mp hsome
    exact ⟨g, List.mem_of_find?_eq_some hg, List.find?_some hg,
      by simp [classifyFiles, hg]⟩
  · intro hnoglb ⟨f, hf, hgltf⟩
    have hnone : files.find? (hasExt (str ".glb")) = none :=
      List.find?_eq_none.mpr (fun x hx => by simp [hnoglb x hx])
    have hsome : (files.find? (hasExt (str ".gltf"))).isSome :=
      List.find?_isSome.mpr ⟨f, hf, hgltf⟩
    obtain ⟨g, hg⟩ := Option.isSome_iff_exists.mp hsome
    exact ⟨g, List.mem_of_find?_eq_some hg, List.find?_some hg,
      by simp [classifyFiles, hnone, hg]⟩
  · constructor
    · intro hclass f hf
      cases hglb : files.find? (hasExt (str ".glb")) with
      | some g => simp [classifyFiles, hglb] at hclass
      | none =>
        cases hgltf : files.find? (hasExt (str ".gltf")) with
        | some g => simp [classifyFiles, hglb, hgltf] at hclass
        | none =>
          constructor
          · have := List.find?_eq_none.mp hglb f hf
            simpa using this
          · have := List.find?_eq_none.mp hgltf f hf
            simpa using this
    · intro hall
      have hglb : files.find? (hasExt (str ".glb")) = none :=
        List.find?_eq_none.mpr (fun x hx => by simp [(hall x hx).1])
      have hgltf : files.find? (hasExt (str ".gltf")) = none :=
        List.find?_eq_none.mpr (fun x hx => by simp [(hall x hx).2])
      simp [classifyFiles, hglb, hgltf]

/-- C8 witness: instance of `classifyFiles_precedence` on a batch holding
both a `.gltf` and a `.glb`: the `.glb` wins. -/
theorem classifyFiles_precedence_witness :
    ∃ g, g ∈ [⟨str "a.gltf", 0⟩, ⟨str "b.GLB", 1⟩] ∧
      hasExt (str ".glb") g = true ∧
      classifyFiles [⟨str "a.gltf", 0⟩, ⟨str "b.GLB", 1⟩] = .glbModel g :=
  (classifyFiles_precedence [⟨str "a.gltf", 0⟩, ⟨str "b.GLB", 1⟩]).1
    ⟨⟨str "b.GLB", 1⟩, by decide, by decide⟩

/-- C9: a corrupt archive (the `loadAsync` throw) fails the whole expansion
with no partial file list; a parseable archive yields exactly one in-memory
file per non-directory entry (directories are skipped), each named by its
entry's basename with the path prefix stripped; and in the resource map built
from the extracted files, a basename collision is resolved last-set-wins. -/
theorem expandArchive_contract (entries : List ZipEntry)
    (files : List InMemoryFile) (k : Str) :
    (expandArchive none = .error ()) ∧
    (∀ L, expandArchive (some entries) = .ok L →
      L.length = (entries.filter (fun e => !e.dir)).length ∧
      ∀ f ∈ L, ∃ e, e ∈ entries ∧ e.dir = false ∧
        f.name = entryFileName e.relativePath ∧ f.payload = e.payload) ∧
    (∀ dirs base : Str, (∀ c ∈ base, (c == '/') = false) → base ≠ [] →
      entryFileName (dirs ++ '/' :: base) = base) ∧
    (mapGet (buildResourceMap files) k =
      files.reverse.find? (fun f => decide (f.name = k))) := by
  refine ⟨rfl, ?_, ?_, ?_⟩
  · intro L hL
    simp only [expandArchive, Except.ok.injEq] at hL
    subst hL
    constructor
    · simp [extractZip]
    · intro f hf
      simp only [extractZip, List.mem_map, List.mem_filter] at hf
      obtain ⟨e, ⟨he, hdir⟩, rfl⟩ := hf
      exact ⟨e, he, by simpa using hdir, rfl, rfl⟩
  · exact fun dirs base h1 h2 => entryFileName_basename dirs base h1 h2
  · exact mapGet_buildResourceMap files k

/-- C9 witness: instance of `expandArchive_contract` at a three-entry archive
(a nested file, a directory, a flat file). -/
theorem expandArchive_contract_witness :
    (extractZip [⟨str "sub/model.gltf", false, 0⟩, ⟨str "sub/", true, 1⟩,
        ⟨str "model.bin", false, 2⟩]).length =
      (([⟨str "sub/model.gltf", false, 0⟩, ⟨str "sub/", true, 1⟩,
        ⟨str "model.bin", false, 2⟩] : List ZipEntry).filter
        (fun e => !e.dir)).length ∧
    ∀ f ∈ extractZip [⟨str "sub/model.gltf", false, 0⟩, ⟨str "sub/", true, 1⟩,
        ⟨str "model.bin", false, 2⟩],
      ∃ e, e ∈ ([⟨str "sub/model.gltf", false, 0⟩, ⟨str "sub/", true, 1⟩,
          ⟨str "model.bin", false, 2⟩] : List ZipEntry) ∧ e.dir = false ∧
        f.name = entryFileName e.relativePath ∧ f.payload = e.payload :=
  (expandArchive_contract [⟨str "sub/model.gltf", false, 0⟩,
      ⟨str "sub/", true, 1⟩, ⟨str "model.bin", false, 2⟩] [] []).2.1
    (extractZip [⟨str "sub/model.gltf", false, 0⟩, ⟨str "sub/", true, 1⟩,
      ⟨str "model.bin", false, 2⟩]) rfl

/-- Bounds for one converted channel value. -/
theorem ratDiv255_bounds (n : Nat) (h : n ≤ 255) :
    0 ≤ (n : Rat) / 255 ∧ (n : Rat) / 255 ≤ 1 := by
  constructor
  · positivity
  · rw [div_le_one (by norm_num)]
    exact_mod_cast h

/-- C10: the hex-to-RGBA conversion always yields a 4-component factor with
every channel in `[0,1]` and alpha exactly 1; any input that is not an
optional-`#` 6-hex-digit color yields exactly opaque white `[1,1,1,1]`; and
`applyColor` only ever writes such a converted factor into a material, so the
base-color factor written is always a valid RGBA in `[0,1]`. -/
theorem hexToRgbNormalized_valid (hex : Str) :
    (hexToRgbNormalized hex).length = 4 ∧
    (∀ x ∈ hexToRgbNormalized hex, 0 ≤ x ∧ x ≤ 1) ∧
    (hexToRgbNormalized hex).getLast? = some (1 : Rat) ∧
    (matchHexColor hex = none → hexToRgbNormalized hex = [1, 1, 1, 1]) ∧
    (∀ materials name m', m' ∈ applyColor materials name hex →
      m' ∈ materials ∨ ∃ m, m ∈ materials ∧
        m' = { m with pbrMetallicRoughness :=
          { m.pbrMetallicRoughness with
            baseColorFactor := hexToRgbNormalized hex } }) := by
  refine ⟨?_, ?_, ?_, ?_, ?_⟩
  · cases hm : matchHexColor hex with
    | none => simp [hexToRgbNormalized, hm]
    | some t =>
      obtain ⟨r1, r2, g1, g2, b1, b2⟩ := t
      simp [hexToRgbNormalized, hm]
  · cases hm : matchHexColor hex with
    | none =>
      simp only [hexToRgbNormalized, hm]
      intro x hx
      simp only [List.mem_cons, List.not_mem_nil, or_false] at hx
      rcases hx with rfl | rfl | rfl | rfl <;> norm_num
    | some t =>
      obtain ⟨r1, r2, g1, g2, b1, b2⟩ := t
      simp only [hexToRgbNormalized, hm]
      intro x hx
      simp only [List.mem_cons, List.not_mem_nil, or_false] at hx
      rcases hx with rfl | rfl | rfl | rfl
      · exact ratDiv255_bounds _ (hexPairValue_le r1 r2)
      · exact ratDiv255_bounds _ (hexPairValue_le g1 g2)
      · exact ratDiv255_bounds _ (hexPairValue_le b1 b2)
      · norm_num
  · cases hm : matchHexColor hex with
    | none => simp [hexToRgbNormalized, hm]
    | some t =>
      obtain ⟨r1, r2, g1, g2, b1, b2⟩ := t
      simp [hexToRgbNormalized, hm]
  · intro h
    simp [hexToRgbNormalized, h]
  · intro materials name m' hm'
    cases hidx : findFirstIdx (fun m => decide (m.name = name)) materials with
    | none =>
      rw [applyColor, hidx] at hm'
      exact Or.inl hm'
    | some i =>
      rw [applyColor, hidx] at hm'
      rcases modifyAt_mem _ materials i m' hm' with hl | ⟨m, hm, rfl⟩
      · exact Or.inl hl
      · exact Or.inr ⟨m, hm, rfl⟩

/-- C10 witness: instance of `hexToRgbNormalized_valid` at a non-color string
(opaque white) and at a concrete preset color (alpha 1). -/
theorem hexToRgbNormalized_valid_witness :
    hexToRgbNormalized (str "zzz") = [1, 1, 1, 1] ∧
    (hexToRgbNormalized (str "#dc2626")).getLast? = some (1 : Rat) :=
  ⟨(hexToRgbNormalized_valid (str "zzz")).2.2.2.1 (by decide),
   (hexToRgbNormalized_valid (str "#dc2626")).2.2.1⟩

end Configurator
